import Mathlib

/-
Verification of the epoch validator auction selector and its audit projection
(repository growfrow/mx-chain-go), together with the status-metrics counters
and the genesis standard delegation processor constructor.

The audit projection (displayMinRequiredTopUp, getShortKey,
getShortDisplayableBlsKeys, displayOwnersData, displayOwnersSelectedNodes,
displayAuctionList) is embedded from package metachain in the source.
The selector core (owner aggregation, threshold search, fair selection) is not
part of the available source; where a claim needs it, it is modelled from the
specification and each such definition is marked: Modelled from the spec.
Machine integers (uint64) are embedded as Nat with explicit reduction
modulo 2^64; Go big.Int values are embedded as Int, with Go big.Int Div
(Euclidean division) embedded as Int.ediv.
-/

/-! ### Byte sequences and their lexicographic order

Public keys and owner addresses are byte sequences; Go compares them with
bytes.Compare / string comparison, which is lexicographic on byte values. -/

/-- A public key: a byte sequence (each entry a byte value). -/
abbrev Pubkey := List Nat

/-- An owner address, also a byte sequence (a Go string key). -/
abbrev OwnerAddr := List Nat

/-- Lexicographic byte order (non-strict) on byte sequences, as a Boolean
function mirroring Go byte-string comparison. -/
def lexLeBytes : List Nat → List Nat → Bool
  | [], _ => true
  | _ :: _, [] => false
  | a :: as, b :: bs =>
    if a < b then true
    else if b < a then false
    else lexLeBytes as bs

theorem lexLeBytes_refl (a : List Nat) : lexLeBytes a a = true := by
  induction a with
  | nil => rfl
  | cons x xs ih => simp [lexLeBytes, ih]

theorem lexLeBytes_total (a b : List Nat) :
    lexLeBytes a b = true ∨ lexLeBytes b a = true := by
  induction a generalizing b with
  | nil => exact Or.inl rfl
  | cons x xs ih =>
    cases b with
    | nil => exact Or.inr rfl
    | cons y ys =>
      rcases Nat.lt_trichotomy x y with hxy | hxy | hxy
      · left; simp [lexLeBytes, hxy]
      · subst hxy
        rcases ih ys with h | h
        · left; simp [lexLeBytes, h]
        · right; simp [lexLeBytes, h]
      · right; simp [lexLeBytes, hxy]

theorem lexLeBytes_trans (a b c : List Nat)
    (hab : lexLeBytes a b = true) (hbc : lexLeBytes b c = true) :
    lexLeBytes a c = true := by
  induction a generalizing b c with
  | nil => rfl
  | cons x xs ih =>
    cases b with
    | nil => simp [lexLeBytes] at hab
    | cons y ys =>
      cases c with
      | nil => simp [lexLeBytes] at hbc
      | cons z zs =>
        simp only [lexLeBytes] at hab hbc ⊢
        rcases Nat.lt_trichotomy x y with hxy | hxy | hxy
        · rcases Nat.lt_trichotomy y z with hyz | hyz | hyz
          · simp [Nat.lt_trans hxy hyz]
          · subst hyz; simp [hxy]
          · simp [hyz, Nat.lt_asymm hyz] at hbc
        · subst hxy
          rcases Nat.lt_trichotomy x z with hxz | hxz | hxz
          · simp [hxz]
          · subst hxz
            simp [Nat.lt_irrefl] at hab hbc ⊢
            exact ih ys zs hab hbc
          · simp [hxz, Nat.lt_asymm hxz] at hbc
        · simp [hxy, Nat.lt_asymm hxy] at hab

theorem lexLeBytes_antisymm (a b : List Nat)
    (hab : lexLeBytes a b = true) (hba : lexLeBytes b a = true) : a = b := by
  induction a generalizing b with
  | nil =>
    cases b with
    | nil => rfl
    | cons y ys => simp [lexLeBytes] at hba
  | cons x xs ih =>
    cases b with
    | nil => simp [lexLeBytes] at hab
    | cons y ys =>
      simp only [lexLeBytes] at hab hba
      rcases Nat.lt_trichotomy x y with hxy | hxy | hxy
      · simp [hxy, Nat.lt_asymm hxy] at hba
      · subst hxy
        simp [Nat.lt_irrefl] at hab hba
        rw [ih ys hab hba]
      · simp [hxy, Nat.lt_asymm hxy] at hab

/-! ### Data model

ownerData mirrors the Go struct ownerData of package metachain: node counts
(Go int64 counters, always non-negative in use, embedded as Nat), big.Int
stake amounts embedded as Int, and the auction node list of the owner (only the
public key of each state.ValidatorInfoHandler is relevant here). -/

/-- The per-owner aggregate record, mirroring the Go ownerData struct. -/
structure OwnerData where
  numActiveNodes : Nat
  numAuctionNodes : Nat
  numQualifiedAuctionNodes : Nat
  numStakedNodes : Nat
  totalTopUp : Int
  topUpPerNode : Int
  qualifiedTopUpPerNode : Int
  auctionList : List Pubkey
deriving DecidableEq, Repr

/-- A rendered table cell. String cells carry the byte sequence written;
numeric cells carry the value rendered by strconv.Itoa or big.Int.String
(decimal rendering is injective, so the value is kept). -/
inductive Cell where
  | str : List Nat → Cell
  | int : Int → Cell
  | nat : Nat → Cell
deriving DecidableEq, Repr

/-- A rendered table line. -/
abbrev Line := List Cell

/-- maxPubKeyDisplayableLen mirrors the Go constant (value 20). -/
def maxPubKeyDisplayableLen : Nat := 20

/-- The three bytes of the ellipsis string written between the displayed
prefix and suffix of a long key (byte 46 is the full stop). -/
def ellipsisBytes : List Nat := [46, 46, 46]

/-- getShortKey mirrors the Go function: a key of length at most
maxPubKeyDisplayableLen is returned whole; a longer key is rebuilt as
first half-length bytes, the ellipsis, then last half-length bytes. -/
def getShortKey (pubKey : Pubkey) : List Nat :=
  let pubKeyLen := pubKey.length
  if pubKeyLen > maxPubKeyDisplayableLen then
    ([] ++ pubKey.take (maxPubKeyDisplayableLen / 2))
      ++ ellipsisBytes
      ++ pubKey.drop (pubKeyLen - maxPubKeyDisplayableLen / 2)
  else
    pubKey

/-- Bytes of the comma-space delimiter written between displayed keys. -/
def delimiterBytes : List Nat := [44, 32]

/-- getShortDisplayableBlsKeys mirrors the Go loop: each key shortened with
getShortKey, with a comma-space delimiter between consecutive keys and none
after the last. -/
def getShortDisplayableBlsKeys : List Pubkey → List Nat
  | [] => []
  | [k] => getShortKey k
  | k :: rest => getShortKey k ++ delimiterBytes ++ getShortDisplayableBlsKeys rest

/-- A Go slice expression l[:k]: in bounds it yields the first k elements,
out of bounds (k greater than the length) it panics, embedded as none. -/
def goSliceTo (l : List Pubkey) (k : Nat) : Option (List Pubkey) :=
  if k ≤ l.length then some (l.take k) else none

/-- One line of the table titled: Selected nodes config from auction list, as built
by displayOwnersSelectedNodes for one owner; none when the slice
auctionList[:numQualifiedAuctionNodes] panics. -/
def ownerSelectedLine (ownerPubKey : OwnerAddr) (owner : OwnerData) : Option Line :=
  (goSliceTo owner.auctionList owner.numQualifiedAuctionNodes).map (fun sel =>
    [Cell.str ownerPubKey,
     Cell.nat owner.numStakedNodes,
     Cell.int owner.topUpPerNode,
     Cell.int owner.totalTopUp,
     Cell.nat owner.numAuctionNodes,
     Cell.nat owner.numQualifiedAuctionNodes,
     Cell.nat owner.numActiveNodes,
     Cell.int owner.qualifiedTopUpPerNode,
     Cell.str (getShortDisplayableBlsKeys sel)])

/-- All lines of the displayOwnersSelectedNodes table, in the iteration order
of the given owner association list; none when the slice of any owner panics. -/
def displayOwnersSelectedNodesLines : List (OwnerAddr × OwnerData) → Option (List Line)
  | [] => some []
  | p :: rest =>
    match ownerSelectedLine p.1 p.2, displayOwnersSelectedNodesLines rest with
    | some l, some ls => some (l :: ls)
    | _, _ => none

/-- One line of the table titled: Initial nodes config in auction list, as built by
displayOwnersData for one owner. -/
def ownerDataLine (ownerPubKey : OwnerAddr) (owner : OwnerData) : Line :=
  [Cell.str ownerPubKey,
   Cell.nat owner.numStakedNodes,
   Cell.nat owner.numActiveNodes,
   Cell.nat owner.numAuctionNodes,
   Cell.int owner.totalTopUp,
   Cell.int owner.topUpPerNode,
   Cell.str (getShortDisplayableBlsKeys owner.auctionList)]

/-- All lines of the displayOwnersData table. -/
def displayOwnersDataLines (ownersData : List (OwnerAddr × OwnerData)) : List Line :=
  ownersData.map (fun p => ownerDataLine p.1 p.2)

/-- Association-list lookup standing for the Go map access ownersData[owner]. -/
def lookupOwner : List (OwnerAddr × OwnerData) → OwnerAddr → Option OwnerData
  | [], _ => none
  | (k, v) :: rest, key => if k = key then some v else lookupOwner rest key

/-- All lines of the displayAuctionList table: for each auction-list
validator, resolve its owner (resolution failure logs and skips the line),
then read ownersData[owner].qualifiedTopUpPerNode; a missing owner entry is a
nil-pointer dereference in Go, embedded as none for the whole rendering. -/
def displayAuctionListLines
    (resolveOwner : Pubkey → Option OwnerAddr)
    (ownersData : List (OwnerAddr × OwnerData)) :
    List Pubkey → Option (List Line)
  | [] => some []
  | pubKey :: rest =>
    match resolveOwner pubKey with
    | none => displayAuctionListLines resolveOwner ownersData rest
    | some owner =>
      match lookupOwner ownersData owner, displayAuctionListLines resolveOwner ownersData rest with
      | some od, some ls =>
        some ([Cell.str owner, Cell.str pubKey, Cell.int od.qualifiedTopUpPerNode] :: ls)
      | _, _ => none

/-- displayMinRequiredTopUp as a pure value computation: the reported
threshold (topUp, minus one step when it differs from the floor) and the
reported iteration count (their distance to the floor in steps, with the
Go big.Int Div embedded as Int.ediv). -/
def minRequiredTopUpReport (topUp minTopUp step : Int) : Int × Int :=
  let topUp1 := if topUp = minTopUp then topUp else topUp - step
  let iteratedValues := topUp1 - minTopUp
  let iterations := Int.ediv iteratedValues step
  (topUp1, iterations)

/-! ### Pointer-level model of displayMinRequiredTopUp

The Go function receives pointers to big.Int values shared with the caller.
Every arithmetic result is written into a freshly allocated value
(big.NewInt(0).Sub / Div) and only the local pointer variable is rebound, so
the values of the caller must stay intact. The heap model makes that checkable. -/

/-- A heap of big.Int values; a pointer is an index into the cell list. -/
structure BigIntHeap where
  cells : List Int
deriving DecidableEq, Repr

/-- Dereference a big.Int pointer (reads 0 for a dangling index). -/
def readCell (h : BigIntHeap) (p : Nat) : Int :=
  h.cells.getD p 0

/-- big.NewInt: allocate a fresh cell holding v, returning the new heap and a
pointer to the fresh cell. -/
def newIntCell (h : BigIntHeap) (v : Int) : BigIntHeap × Nat :=
  (⟨h.cells ++ [v]⟩, h.cells.length)

/-- displayMinRequiredTopUp at the pointer level: the three arguments are
pointers into the heap; each statement of the Go body is mirrored, including
the rebinding of the local topUp variable to a freshly allocated difference.
Returns the final heap together with the logged (threshold, iterations). -/
def displayMinRequiredTopUpHeap (h : BigIntHeap) (topUpP minP stepP : Nat) :
    BigIntHeap × (Int × Int) :=
  let topUpV := readCell h topUpP
  let minV := readCell h minP
  let stepV := readCell h stepP
  let step1 := if topUpV = minV then (h, topUpP) else newIntCell h (topUpV - stepV)
  let h1 := step1.1
  let topUpP1 := step1.2
  let step2 := newIntCell h1 (readCell h1 topUpP1 - minV)
  let h2 := step2.1
  let iteratedValuesP := step2.2
  let step3 := newIntCell h2 (Int.ediv (readCell h2 iteratedValuesP) stepV)
  let h3 := step3.1
  let iterationsP := step3.2
  (h3, (readCell h3 topUpP1, readCell h3 iterationsP))

/-! ### Log levels

The levels of the node logger; the audit projection is meant to be suppressed at
any level above debug. In the source, the guard
of the form: if log.GetLevel() above logger.LogDebug then return, is commented out at the top
of every display function, so the embeddings below ignore the level exactly
as the code does. -/

/-- Logger levels, ordered as in the logging library of the node. -/
inductive LogLevel where
  | trace
  | debug
  | info
  | warn
  | err
deriving DecidableEq, Repr

/-- Whether a level is above debug, the suppression condition of the
commented-out guard. -/
def levelAboveDebug : LogLevel → Bool
  | LogLevel.trace => false
  | LogLevel.debug => false
  | _ => true

/-- displayOwnersData as the code stands: the verbosity guard is commented
out, so the same table is rendered at every log level. -/
def displayOwnersDataAt (lvl : LogLevel) (ownersData : List (OwnerAddr × OwnerData)) :
    List Line :=
  match lvl with
  | _ => displayOwnersDataLines ownersData

/-! ### The selector core, modelled from the spec

Modelled from the spec: the owner aggregation output ordering (spec 4.1,
owner-address lexicographic), the threshold search engine (spec 4.2, linear
descent from the maximum observed topUpPerNode by one fixed step per
iteration towards a fixed floor) and the fair selector (spec 4.3, per-owner
qualification under the discovered threshold, per-owner node order by
ascending public key bytes). The corresponding Go code (auctionListSelector
aggregation/search/selection) is not among the available source files; the
display functions above are its only in-source witnesses. -/

/-- Modelled from the spec: protocol constants handed to the selector
(minimum admissible top-up floor, fixed search step, available seats S). -/
structure AuctionConfig where
  floorTopUp : Int
  step : Int
  seats : Nat
deriving DecidableEq, Repr

/-- Selection Result: the promoted and remaining partition of the auction
list, the discovered threshold and the audit iteration count. -/
structure SelectionResult where
  promoted : List Pubkey
  remaining : List Pubkey
  threshold : Int
  iterations : Nat
deriving DecidableEq, Repr

/-- The owners-map entry order relation: by owner address bytes. -/
def ownerEntryLe (a b : OwnerAddr × OwnerData) : Prop :=
  lexLeBytes a.1 b.1 = true

instance : DecidableRel ownerEntryLe := fun a b => by
  unfold ownerEntryLe; infer_instance

instance : IsTotal (OwnerAddr × OwnerData) ownerEntryLe :=
  ⟨fun a b => lexLeBytes_total a.1 b.1⟩

instance : IsTrans (OwnerAddr × OwnerData) ownerEntryLe :=
  ⟨fun a b c => lexLeBytes_trans a.1 b.1 c.1⟩

/-- Modelled from the spec: canonical owner ordering before any cross-owner
iteration (spec 4.1 and 9: iteration order of the Go map must be replaced by
explicit owner-address lexicographic order). -/
def sortOwners (l : List (OwnerAddr × OwnerData)) : List (OwnerAddr × OwnerData) :=
  List.insertionSort ownerEntryLe l

/-- The public-key order relation used inside the auction list of one owner. -/
def pubkeyLe (a b : Pubkey) : Prop := lexLeBytes a b = true

instance : DecidableRel pubkeyLe := fun a b => by
  unfold pubkeyLe; infer_instance

/-- Modelled from the spec: the auction nodes of an owner in ascending public key
byte order (spec 4.3, the only tie-break rule). -/
def sortPubkeys (l : List Pubkey) : List Pubkey :=
  List.insertionSort pubkeyLe l

/-- Modelled from the spec: how many auction nodes of an owner qualify
under candidate threshold t (spec 4.3: an owner whose topUpPerNode reaches
the threshold qualifies with its auction nodes, otherwise with none). -/
def qualifiedCount (t : Int) (o : OwnerData) : Nat :=
  if t ≤ o.topUpPerNode then o.numAuctionNodes else 0

/-- Modelled from the spec: total seats filled at candidate threshold t. -/
def seatsFilled (t : Int) (owners : List (OwnerAddr × OwnerData)) : Nat :=
  (owners.map (fun p => qualifiedCount t p.2)).sum

/-- Modelled from the spec: the maximum observed topUpPerNode across owners
with auction nodes, never below the floor (spec 4.2 start point). -/
def maxTopUpPerNode (owners : List (OwnerAddr × OwnerData)) (floorTopUp : Int) : Int :=
  owners.foldl
    (fun acc p => if 0 < p.2.numAuctionNodes then max acc p.2.topUpPerNode else acc)
    floorTopUp

/-- Modelled from the spec: the threshold search loop (spec 4.2), fuel-bounded
descent. At the current candidate t: stop when enough seats are filled or the
floor is reached; otherwise decrease by exactly one step, counting one
iteration. Returns the stop threshold and the iteration count. -/
def thresholdSearchGo (enoughSeats : Int → Bool) (floorTopUp step : Int) :
    Nat → Int → Int × Nat
  | 0, t => (t, 0)
  | fuel + 1, t =>
    if enoughSeats t ∨ t ≤ floorTopUp then (t, 0)
    else
      let rest := thresholdSearchGo enoughSeats floorTopUp step fuel (t - step)
      (rest.1, rest.2 + 1)

/-- Modelled from the spec: the full threshold search from a start value,
with fuel covering the whole distance from start to floor. -/
def thresholdSearchDesc (enoughSeats : Int → Bool) (start floorTopUp step : Int) :
    Int × Nat :=
  thresholdSearchGo enoughSeats floorTopUp step ((start - floorTopUp).toNat + 1) start

/-- Modelled from the spec: the epoch validator auction selector. Owners are
first brought into canonical owner-address order, each auction list of an owner
into ascending public key order; the threshold search descends from the
maximum observed topUpPerNode; the promoted set takes from each owner the
prefix of its qualified auction nodes, the remainder stays in auction. -/
def auctionSelect (cfg : AuctionConfig) (owners : List (OwnerAddr × OwnerData)) :
    SelectionResult :=
  let sorted := sortOwners owners
  let start := maxTopUpPerNode sorted cfg.floorTopUp
  let found := thresholdSearchDesc
    (fun t => decide (cfg.seats ≤ seatsFilled t sorted)) start cfg.floorTopUp cfg.step
  let promoted := List.flatten (sorted.map
    (fun p => (sortPubkeys p.2.auctionList).take (qualifiedCount found.1 p.2)))
  let remaining := List.flatten (sorted.map
    (fun p => (sortPubkeys p.2.auctionList).drop (qualifiedCount found.1 p.2)))
  ⟨promoted, remaining, found.1, found.2⟩

/-! ### Owner aggregate division formulas

Modelled from the spec: the two per-node averages of section 3 (the selector
code computing them is not among the source files; displayOwnersData and
displayOwnersSelectedNodes print the resulting fields). Go big.Int Div is
Euclidean division, embedded as Int.ediv. -/

/-- Modelled from the spec: topUpPerNode = totalTopUp / numStakedNodes. -/
def topUpPerNodeOf (o : OwnerData) : Int :=
  Int.ediv o.totalTopUp (o.numStakedNodes : Int)

/-- Modelled from the spec: qualifiedTopUpPerNode =
totalTopUp / (numActiveNodes + numQualifiedAuctionNodes). -/
def qualifiedTopUpPerNodeOf (o : OwnerData) : Int :=
  Int.ediv o.totalTopUp ((o.numActiveNodes + o.numQualifiedAuctionNodes : Nat) : Int)

/-! ### Status metrics counters

statusMetrics of package statusHandler: a map from string keys to values of
dynamic type (the stored values are uint64, int64 or string); Increment,
AddUint64 and Decrement load the key, bail out when the key is absent or the
stored value is not a uint64, and store the updated uint64 back. uint64
arithmetic wraps modulo 2^64. -/

/-- A value stored in the metrics map: the dynamic type of what the setters
store (uint64, int64 or string). -/
inductive MetricValue where
  | u64 : Nat → MetricValue
  | i64 : Int → MetricValue
  | str : String → MetricValue
deriving DecidableEq, Repr

/-- The metrics map, as an association list in insertion order. -/
abbrev MetricsMap := List (String × MetricValue)

/-- The uint64 modulus. -/
def u64Mod : Nat := 2 ^ 64

/-- sync.Map.Load: the value at a key, none when the key is absent. -/
def loadMetric : MetricsMap → String → Option MetricValue
  | [], _ => none
  | (k, v) :: rest, key => if k = key then some v else loadMetric rest key

/-- sync.Map.Store: replace the value at an existing key, or append a new
binding for a fresh key. -/
def storeMetric : MetricsMap → String → MetricValue → MetricsMap
  | [], key, v => [(key, v)]
  | (k, w) :: rest, key, v =>
    if k = key then (k, v) :: rest else (k, w) :: storeMetric rest key v

/-- statusMetrics.Increment: load the key; return unchanged unless it holds a
uint64; otherwise store the incremented value (uint64 wrap-around). -/
def increment (m : MetricsMap) (key : String) : MetricsMap :=
  match loadMetric m key with
  | some (MetricValue.u64 v) => storeMetric m key (MetricValue.u64 ((v + 1) % u64Mod))
  | _ => m

/-- statusMetrics.AddUint64: load the key; return unchanged unless it holds a
uint64; otherwise store the sum (uint64 wrap-around). -/
def addUint64 (m : MetricsMap) (key : String) (val : Nat) : MetricsMap :=
  match loadMetric m key with
  | some (MetricValue.u64 v) => storeMetric m key (MetricValue.u64 ((v + val) % u64Mod))
  | _ => m

/-- statusMetrics.Decrement: load the key; return unchanged unless it holds a
uint64; a zero value is also left untouched; otherwise store value - 1. -/
def decrement (m : MetricsMap) (key : String) : MetricsMap :=
  match loadMetric m key with
  | some (MetricValue.u64 v) =>
    if v = 0 then m else storeMetric m key (MetricValue.u64 (v - 1))
  | _ => m

theorem storeMetric_map_fst_of_load (m : MetricsMap) (key : String)
    (v w : MetricValue) (h : loadMetric m key = some w) :
    (storeMetric m key v).map Prod.fst = m.map Prod.fst := by
  induction m with
  | nil => simp [loadMetric] at h
  | cons p rest ih =>
    obtain ⟨k, u⟩ := p
    by_cases hk : k = key
    · simp [storeMetric, hk]
    · simp only [loadMetric, hk, if_false] at h
      simp [storeMetric, hk, ih h]

theorem loadMetric_storeMetric_self (m : MetricsMap) (key : String) (v : MetricValue) :
    loadMetric (storeMetric m key v) key = some v := by
  induction m with
  | nil => simp [storeMetric, loadMetric]
  | cons p rest ih =>
    obtain ⟨k, u⟩ := p
    by_cases hk : k = key
    · simp [storeMetric, loadMetric, hk]
    · simp [storeMetric, loadMetric, hk, ih]

/-! ### Genesis standard delegation processor constructor

NewStandardDelegationProcessor of package intermediate: nil checks on every
injected dependency (check.IfNil embedded as an Option being none), then the
NodePrice nil and positivity checks, then construction of the processor from
exactly the supplied arguments. The injected collaborator interfaces are
opaque here; each is embedded as a wrapper carrying an identity. -/

/-- Opaque stand-in for the genesis.TxExecutionProcessor collaborator. -/
structure TxExecutionProcessor where
  ident : Nat
deriving DecidableEq, Repr

/-- Opaque stand-in for the sharding.Coordinator collaborator. -/
structure ShardCoordinator where
  ident : Nat
deriving DecidableEq, Repr

/-- Opaque stand-in for the genesis.AccountsParser collaborator. -/
structure AccountsParser where
  ident : Nat
deriving DecidableEq, Repr

/-- Opaque stand-in for the genesis.InitialSmartContractParser collaborator. -/
structure InitialSmartContractParser where
  ident : Nat
deriving DecidableEq, Repr

/-- Opaque stand-in for the genesis.NodesListSplitter collaborator. -/
structure NodesListSplitter where
  ident : Nat
deriving DecidableEq, Repr

/-- Opaque stand-in for the external.SCQueryService collaborator. -/
structure SCQueryService where
  ident : Nat
deriving DecidableEq, Repr

/-- ArgStandardDelegationProcessor: the constructor argument, every interface
field nilable (none = nil), NodePrice a nilable big.Int. -/
structure ArgStandardDelegationProcessor where
  Executor : Option TxExecutionProcessor
  ShardCoordinator : Option ShardCoordinator
  AccountsParser : Option AccountsParser
  SmartContractParser : Option InitialSmartContractParser
  NodesListSplitter : Option NodesListSplitter
  QueryService : Option SCQueryService
  NodePrice : Option Int
deriving DecidableEq, Repr

/-- The distinct error values the constructor can return. -/
inductive GenesisError where
  | errNilTxExecutionProcessor
  | errNilShardCoordinator
  | errNilAccountsParser
  | errNilSmartContractParser
  | errNilNodesListSplitter
  | errNilQueryService
  | errNilInitialNodePrice
  | errInvalidInitialNodePrice
deriving DecidableEq, Repr

/-- standardDelegationProcessor: the constructed processor (field names as in
the Go struct, including its accuntsParser spelling). -/
structure StandardDelegationProcessor where
  txExecutionProcessor : TxExecutionProcessor
  shardCoordinator : ShardCoordinator
  accuntsParser : AccountsParser
  smartContractsParser : InitialSmartContractParser
  nodesListSplitter : NodesListSplitter
  queryService : SCQueryService
  nodePrice : Int
deriving DecidableEq, Repr

/-- NewStandardDelegationProcessor: the Go nil-check ladder in order, then
NodePrice.Cmp(zero) <= 0, then construction from the supplied arguments. -/
def NewStandardDelegationProcessor (arg : ArgStandardDelegationProcessor) :
    Except GenesisError StandardDelegationProcessor :=
  match arg.Executor with
  | none => Except.error GenesisError.errNilTxExecutionProcessor
  | some executor =>
  match arg.ShardCoordinator with
  | none => Except.error GenesisError.errNilShardCoordinator
  | some shardCoordinator =>
  match arg.AccountsParser with
  | none => Except.error GenesisError.errNilAccountsParser
  | some accountsParser =>
  match arg.SmartContractParser with
  | none => Except.error GenesisError.errNilSmartContractParser
  | some smartContractParser =>
  match arg.NodesListSplitter with
  | none => Except.error GenesisError.errNilNodesListSplitter
  | some nodesListSplitter =>
  match arg.QueryService with
  | none => Except.error GenesisError.errNilQueryService
  | some queryService =>
  match arg.NodePrice with
  | none => Except.error GenesisError.errNilInitialNodePrice
  | some nodePrice =>
  if nodePrice ≤ 0 then Except.error GenesisError.errInvalidInitialNodePrice
  else Except.ok
    ⟨executor, shardCoordinator, accountsParser, smartContractParser,
     nodesListSplitter, queryService, nodePrice⟩

/-! ### Determinism of the canonical owner ordering -/

/-- Strict owner-entry order: order on addresses together with address
distinctness. -/
def ownerEntryLt (a b : OwnerAddr × OwnerData) : Prop :=
  ownerEntryLe a b ∧ a.1 ≠ b.1

instance : IsAntisymm (OwnerAddr × OwnerData) ownerEntryLt :=
  ⟨fun a b hab hba => (hab.2 (lexLeBytes_antisymm a.1 b.1 hab.1 hba.1)).elim⟩

theorem sortOwners_perm (l : List (OwnerAddr × OwnerData)) :
    (sortOwners l).Perm l :=
  List.perm_insertionSort ownerEntryLe l

theorem sortOwners_sorted (l : List (OwnerAddr × OwnerData)) :
    List.Sorted ownerEntryLe (sortOwners l) :=
  List.sorted_insertionSort ownerEntryLe l

theorem sorted_strict_of_nodup_keys (s : List (OwnerAddr × OwnerData))
    (hs : List.Sorted ownerEntryLe s) (hnd : (s.map Prod.fst).Nodup) :
    List.Sorted ownerEntryLt s := by
  have hne : List.Pairwise (fun a b : OwnerAddr × OwnerData => a.1 ≠ b.1) s :=
    List.pairwise_map.mp hnd
  exact (List.Pairwise.and hs hne :
    List.Pairwise (fun a b => ownerEntryLe a b ∧ a.1 ≠ b.1) s)

theorem sortOwners_eq_of_perm (l1 l2 : List (OwnerAddr × OwnerData))
    (hp : l1.Perm l2) (hnd : (l1.map Prod.fst).Nodup) :
    sortOwners l1 = sortOwners l2 := by
  have hnd1 : ((sortOwners l1).map Prod.fst).Nodup :=
    ((sortOwners_perm l1).map Prod.fst).nodup_iff.mpr hnd
  have hnd2 : ((sortOwners l2).map Prod.fst).Nodup :=
    ((sortOwners_perm l2).map Prod.fst).nodup_iff.mpr ((hp.map Prod.fst).nodup_iff.mp hnd)
  have hperm : (sortOwners l1).Perm (sortOwners l2) :=
    ((sortOwners_perm l1).trans hp).trans (sortOwners_perm l2).symm
  exact List.eq_of_perm_of_sorted hperm
    (sorted_strict_of_nodup_keys _ (sortOwners_sorted l1) hnd1)
    (sorted_strict_of_nodup_keys _ (sortOwners_sorted l2) hnd2)

/-- A division helper: Euclidean division of Nat casts is Nat division. -/
theorem intEdiv_natCast (m n : Nat) :
    Int.ediv (m : Int) (n : Int) = ((m / n : Nat) : Int) := rfl

/-! ### Claims -/

/-- C1: for identical inputs (owner aggregates, protocol constants), two runs
of the auction selector produce identical Selection Results, thresholds and
iteration counts; in particular the result does not depend on the iteration
order in which the Go owners map hands out its entries, as long as owner
addresses are distinct. -/
theorem auctionSelect_deterministic (cfg : AuctionConfig)
    (l1 l2 : List (OwnerAddr × OwnerData))
    (hp : l1.Perm l2) (hnd : (l1.map Prod.fst).Nodup) :
    auctionSelect cfg l1 = auctionSelect cfg l2 := by
  unfold auctionSelect
  rw [sortOwners_eq_of_perm l1 l2 hp hnd]

/-- Witness for C1 at a concrete two-owner input handed out in two different
orders. -/
theorem auctionSelect_deterministic_witness :
    ([([1], (⟨1, 2, 1, 3, 900, 300, 450, [[3], [4]]⟩ : OwnerData)),
      ([2], (⟨0, 1, 1, 1, 500, 500, 500, [[9]]⟩ : OwnerData))] :
        List (OwnerAddr × OwnerData)).Perm
      [([2], (⟨0, 1, 1, 1, 500, 500, 500, [[9]]⟩ : OwnerData)),
       ([1], (⟨1, 2, 1, 3, 900, 300, 450, [[3], [4]]⟩ : OwnerData))] ∧
    (([([1], (⟨1, 2, 1, 3, 900, 300, 450, [[3], [4]]⟩ : OwnerData)),
       ([2], (⟨0, 1, 1, 1, 500, 500, 500, [[9]]⟩ : OwnerData))] :
        List (OwnerAddr × OwnerData)).map Prod.fst).Nodup ∧
    auctionSelect ⟨100, 100, 2⟩
      [([1], (⟨1, 2, 1, 3, 900, 300, 450, [[3], [4]]⟩ : OwnerData)),
       ([2], (⟨0, 1, 1, 1, 500, 500, 500, [[9]]⟩ : OwnerData))] =
    auctionSelect ⟨100, 100, 2⟩
      [([2], (⟨0, 1, 1, 1, 500, 500, 500, [[9]]⟩ : OwnerData)),
       ([1], (⟨1, 2, 1, 3, 900, 300, 450, [[3], [4]]⟩ : OwnerData))] :=
  ⟨by decide, by decide,
   auctionSelect_deterministic ⟨100, 100, 2⟩ _ _ (by decide) (by decide)⟩

/-- C2: when the auction node list of an owner is in ascending public key byte
order and numQualifiedAuctionNodes is within its length, the prefix of the
first numQualifiedAuctionNodes entries - exactly what
displayOwnersSelectedNodes slices and renders as the selected nodes - is a
set of keys each lexicographically at most every non-selected key, i.e. the
k lexicographically smallest keys of that owner. -/
theorem ownerSelectedNodes_lex_smallest (addr : OwnerAddr) (o : OwnerData)
    (hsorted : List.Pairwise pubkeyLe o.auctionList)
    (hk : o.numQualifiedAuctionNodes ≤ o.auctionList.length) :
    ownerSelectedLine addr o = some
      [Cell.str addr,
       Cell.nat o.numStakedNodes,
       Cell.int o.topUpPerNode,
       Cell.int o.totalTopUp,
       Cell.nat o.numAuctionNodes,
       Cell.nat o.numQualifiedAuctionNodes,
       Cell.nat o.numActiveNodes,
       Cell.int o.qualifiedTopUpPerNode,
       Cell.str (getShortDisplayableBlsKeys
         (o.auctionList.take o.numQualifiedAuctionNodes))] ∧
    ∀ x ∈ o.auctionList.take o.numQualifiedAuctionNodes,
      ∀ y ∈ o.auctionList.drop o.numQualifiedAuctionNodes,
        lexLeBytes x y = true := by
  constructor
  · simp [ownerSelectedLine, goSliceTo, hk]
  · have hsplit : List.Pairwise pubkeyLe
        (o.auctionList.take o.numQualifiedAuctionNodes ++
         o.auctionList.drop o.numQualifiedAuctionNodes) := by
      rw [List.take_append_drop]; exact hsorted
    exact (List.pairwise_append.mp hsplit).2.2

/-- Witness for C2 at a concrete sorted three-node owner with two qualified
nodes. -/
theorem ownerSelectedNodes_lex_smallest_witness :
    List.Pairwise pubkeyLe
      ((⟨1, 3, 2, 4, 1000, 250, 500, [[1], [2], [3]]⟩ : OwnerData).auctionList) ∧
    (⟨1, 3, 2, 4, 1000, 250, 500, [[1], [2], [3]]⟩ : OwnerData).numQualifiedAuctionNodes ≤
      (⟨1, 3, 2, 4, 1000, 250, 500, [[1], [2], [3]]⟩ : OwnerData).auctionList.length ∧
    ownerSelectedLine [7] (⟨1, 3, 2, 4, 1000, 250, 500, [[1], [2], [3]]⟩ : OwnerData) = some
      [Cell.str [7], Cell.nat 4, Cell.int 250, Cell.int 1000, Cell.nat 3,
       Cell.nat 2, Cell.nat 1, Cell.int 500,
       Cell.str (getShortDisplayableBlsKeys ([[1], [2], [3]].take 2))] :=
  ⟨by decide, by decide,
   (ownerSelectedNodes_lex_smallest [7]
     (⟨1, 3, 2, 4, 1000, 250, 500, [[1], [2], [3]]⟩ : OwnerData)
     (by decide) (by decide)).1⟩

/-- C3: for an owner aggregate with non-negative totalTopUp,
numStakedNodes = numActiveNodes + numAuctionNodes at least 1, a positive
qualified denominator, and numQualifiedAuctionNodes < numAuctionNodes, the
floor quotient totalTopUp / (numActiveNodes + numQualifiedAuctionNodes) is at
least the floor quotient totalTopUp / numStakedNodes. -/
theorem qualifiedTopUpPerNode_ge_topUpPerNode (o : OwnerData)
    (hnn : 0 ≤ o.totalTopUp)
    (hsum : o.numStakedNodes = o.numActiveNodes + o.numAuctionNodes)
    (hstaked : 1 ≤ o.numStakedNodes)
    (hq : 1 ≤ o.numActiveNodes + o.numQualifiedAuctionNodes)
    (hlt : o.numQualifiedAuctionNodes < o.numAuctionNodes) :
    topUpPerNodeOf o ≤ qualifiedTopUpPerNodeOf o := by
  unfold topUpPerNodeOf qualifiedTopUpPerNodeOf
  have hAe : ((o.totalTopUp.toNat : Nat) : Int) = o.totalTopUp :=
    Int.toNat_of_nonneg hnn
  rw [← hAe, intEdiv_natCast, intEdiv_natCast]
  exact_mod_cast Nat.div_le_div_left (by omega) (by omega)

/-- Witness for C3 at a concrete aggregate (1 active, 2 auction, 1 qualified,
total top-up 900): 900/3 = 300 is at most 900/2 = 450. -/
theorem qualifiedTopUpPerNode_ge_topUpPerNode_witness :
    0 ≤ (⟨1, 2, 1, 3, 900, 300, 450, []⟩ : OwnerData).totalTopUp ∧
    topUpPerNodeOf (⟨1, 2, 1, 3, 900, 300, 450, []⟩ : OwnerData) ≤
      qualifiedTopUpPerNodeOf (⟨1, 2, 1, 3, 900, 300, 450, []⟩ : OwnerData) :=
  ⟨by decide,
   qualifiedTopUpPerNode_ge_topUpPerNode (⟨1, 2, 1, 3, 900, 300, 450, []⟩ : OwnerData)
     (by decide) (by decide) (by decide) (by decide) (by decide)⟩

/-- C4 counterexample: a descending threshold search from maximum 1000 with
floor 100 and step 100, whose seats-filled test first succeeds at 300, stops
at threshold 300 after 7 iterations, and (1000 - 300) / 100 = 7; but the
iteration count displayMinRequiredTopUp reports for threshold 300 is
(300 - 100 - 100) / 100 = 1, not 7. -/
theorem minRequiredTopUp_iterations_counterexample :
    thresholdSearchDesc (fun t => decide (t ≤ 300)) 1000 100 100 = (300, 7) ∧
    ((1000 - 300 : Int) / 100 = 7) ∧
    (minRequiredTopUpReport 300 100 100).2 = 1 ∧
    (1 : Int) ≠ 7 := by
  refine ⟨by decide, by decide, by decide, by decide⟩

/-- C4 amended: the iteration count displayMinRequiredTopUp reports measures
the distance from the floor up to the reported threshold, not from the
maximum down to it: for a search that starts at the floor and increases by
exactly one step per iteration, ending after n increments at
topUp = floor + n * step, the displayed count is n - 1 when n is positive and
0 when n = 0. -/
theorem minRequiredTopUp_iterations_of_ascent (minTopUp step : Int) (n : Nat)
    (hstep : 0 < step) :
    (minRequiredTopUpReport (minTopUp + (n : Int) * step) minTopUp step).2 =
      if n = 0 then 0 else (n : Int) - 1 := by
  by_cases hn : n = 0
  · subst hn
    simp [minRequiredTopUpReport]
    exact Int.zero_ediv step
  · have hpos : 0 < (n : Int) * step :=
      mul_pos (by exact_mod_cast Nat.pos_of_ne_zero hn) hstep
    have hne : minTopUp + (n : Int) * step ≠ minTopUp := by
      intro h
      have hz : (n : Int) * step = 0 := by linarith
      rw [hz] at hpos
      exact lt_irrefl 0 hpos
    have harith : minTopUp + (n : Int) * step - step - minTopUp =
        ((n : Int) - 1) * step := by ring
    simp only [minRequiredTopUpReport, if_neg hne, if_neg hn, harith]
    exact Int.mul_ediv_cancel ((n : Int) - 1) (ne_of_gt hstep)

/-- Witness for the amended C4: an ascending search reaching 100 + 3 * 50
reports 2 iterations. -/
theorem minRequiredTopUp_iterations_of_ascent_witness :
    (0 : Int) < 50 ∧
    (minRequiredTopUpReport (100 + (3 : Nat) * 50) 100 50).2 =
      if (3 : Nat) = 0 then 0 else ((3 : Nat) : Int) - 1 :=
  ⟨by decide, minRequiredTopUp_iterations_of_ascent 100 50 3 (by decide)⟩

/-- The owner-aggregate well-formedness invariant stated by the spec:
numQualifiedAuctionNodes at most numAuctionNodes, and numAuctionNodes equal
to the auction node list length. -/
def wellFormedOwner (o : OwnerData) : Prop :=
  o.numQualifiedAuctionNodes ≤ o.numAuctionNodes ∧
  o.numAuctionNodes = o.auctionList.length

instance : DecidablePred wellFormedOwner := fun o => by
  unfold wellFormedOwner; infer_instance

/-- C5: under the invariant, the slice every owner contributes,
auctionList[:numQualifiedAuctionNodes] taken by displayOwnersSelectedNodes is
within bounds, so the whole table renders without reaching the out-of-range
panic branch. -/
theorem displayOwnersSelectedNodes_within_bounds
    (owners : List (OwnerAddr × OwnerData))
    (h : ∀ p ∈ owners, wellFormedOwner p.2) :
    (displayOwnersSelectedNodesLines owners).isSome := by
  induction owners with
  | nil => rfl
  | cons p rest ih =>
    have hp := h p (List.mem_cons_self p rest)
    have hk : p.2.numQualifiedAuctionNodes ≤ p.2.auctionList.length := by
      rcases hp with ⟨h1, h2⟩; omega
    have hrest := ih (fun q hq => h q (List.mem_cons_of_mem p hq))
    rcases hro : displayOwnersSelectedNodesLines rest with _ | ls
    · rw [hro] at hrest; simp at hrest
    · simp [displayOwnersSelectedNodesLines, ownerSelectedLine, goSliceTo, hk, hro]

/-- Witness for C5 at a concrete two-owner list satisfying the invariant. -/
theorem displayOwnersSelectedNodes_within_bounds_witness :
    (∀ p ∈ ([([1], (⟨1, 2, 1, 3, 900, 300, 450, [[3], [4]]⟩ : OwnerData)),
             ([2], (⟨0, 1, 1, 1, 500, 500, 500, [[9]]⟩ : OwnerData))] :
        List (OwnerAddr × OwnerData)), wellFormedOwner p.2) ∧
    (displayOwnersSelectedNodesLines
      [([1], (⟨1, 2, 1, 3, 900, 300, 450, [[3], [4]]⟩ : OwnerData)),
       ([2], (⟨0, 1, 1, 1, 500, 500, 500, [[9]]⟩ : OwnerData))]).isSome :=
  ⟨by decide,
   displayOwnersSelectedNodes_within_bounds
     [([1], (⟨1, 2, 1, 3, 900, 300, 450, [[3], [4]]⟩ : OwnerData)),
      ([2], (⟨0, 1, 1, 1, 500, 500, 500, [[9]]⟩ : OwnerData))] (by decide)⟩

theorem readCell_append (cells tail : List Int) (i : Nat)
    (hi : i < cells.length) :
    readCell ⟨cells ++ tail⟩ i = readCell ⟨cells⟩ i := by
  unfold readCell
  exact List.getD_append cells tail 0 i hi

/-- The cells written by one displayMinRequiredTopUp run only extend the
heap: the cells of the caller keep their positions and values. -/
theorem displayMinRequiredTopUpHeap_frame (h : BigIntHeap) (a b c i : Nat)
    (hi : i < h.cells.length) :
    readCell (displayMinRequiredTopUpHeap h a b c).1 i = readCell h i := by
  unfold displayMinRequiredTopUpHeap newIntCell
  by_cases hcmp : readCell h a = readCell h b
  · simp only [if_pos hcmp]
    rw [List.append_assoc]
    exact readCell_append h.cells _ i hi
  · simp only [if_neg hcmp]
    rw [List.append_assoc, List.append_assoc]
    exact readCell_append h.cells _ i hi

/-- displayOwnersData with its input threaded through: the rendering returns
the table lines and hands the owners back untouched. -/
def displayOwnersDataRun (ownersData : List (OwnerAddr × OwnerData)) :
    List (OwnerAddr × OwnerData) × List Line :=
  (ownersData, displayOwnersDataLines ownersData)

/-- displayOwnersSelectedNodes with its input threaded through. -/
def displayOwnersSelectedNodesRun (ownersData : List (OwnerAddr × OwnerData)) :
    List (OwnerAddr × OwnerData) × Option (List Line) :=
  (ownersData, displayOwnersSelectedNodesLines ownersData)

/-- displayAuctionList with its inputs threaded through. -/
def displayAuctionListRun (resolveOwner : Pubkey → Option OwnerAddr)
    (ownersData : List (OwnerAddr × OwnerData)) (auctionList : List Pubkey) :
    (List (OwnerAddr × OwnerData) × List Pubkey) × Option (List Line) :=
  ((ownersData, auctionList),
   displayAuctionListLines resolveOwner ownersData auctionList)

/-- C6: a run of the audit projection leaves every input unchanged: every
big.Int cell the caller passed to displayMinRequiredTopUp still holds its
value (the Go body only rebinds a local to freshly allocated values), and the
table renderers hand back the owner aggregates and the auction list exactly
as given, returning only rendered text. -/
theorem audit_projection_preserves_inputs
    (h : BigIntHeap) (a b c : Nat) (i : Nat) (hi : i < h.cells.length)
    (ownersData : List (OwnerAddr × OwnerData)) (auctionList : List Pubkey)
    (resolveOwner : Pubkey → Option OwnerAddr) :
    readCell (displayMinRequiredTopUpHeap h a b c).1 i = readCell h i ∧
    (displayOwnersDataRun ownersData).1 = ownersData ∧
    (displayOwnersSelectedNodesRun ownersData).1 = ownersData ∧
    (displayAuctionListRun resolveOwner ownersData auctionList).1 =
      (ownersData, auctionList) := by
  exact ⟨displayMinRequiredTopUpHeap_frame h a b c i hi, rfl, rfl, rfl⟩

/-- Witness for C6 at a concrete three-cell heap and one-owner input. -/
theorem audit_projection_preserves_inputs_witness :
    (0 : Nat) < (BigIntHeap.mk [300, 100, 100]).cells.length ∧
    readCell (displayMinRequiredTopUpHeap (BigIntHeap.mk [300, 100, 100]) 0 1 2).1 0 =
      readCell (BigIntHeap.mk [300, 100, 100]) 0 ∧
    (displayOwnersDataRun [([1], (⟨1, 1, 1, 2, 100, 50, 100, [[7]]⟩ : OwnerData))]).1 =
      [([1], (⟨1, 1, 1, 2, 100, 50, 100, [[7]]⟩ : OwnerData))] :=
  ⟨by decide,
   (audit_projection_preserves_inputs (BigIntHeap.mk [300, 100, 100]) 0 1 2 0 (by decide)
     [([1], (⟨1, 1, 1, 2, 100, 50, 100, [[7]]⟩ : OwnerData))] [] (fun _ => none)).1,
   (audit_projection_preserves_inputs (BigIntHeap.mk [300, 100, 100]) 0 1 2 0 (by decide)
     [([1], (⟨1, 1, 1, 2, 100, 50, 100, [[7]]⟩ : OwnerData))] [] (fun _ => none)).2.1⟩

/-- C7: the suppression guard comparing log.GetLevel() against logger.LogDebug is
commented out in every display function, so at log level info - a
verbosity-suppressed level above debug - displayOwnersData still renders its
table: on a one-owner input the rendering is nonempty, where the claim
requires an immediate return with no output. -/
theorem displayOwnersData_renders_above_debug :
    levelAboveDebug LogLevel.info = true ∧
    displayOwnersDataAt LogLevel.info
      [([1], (⟨1, 1, 1, 2, 100, 50, 100, [[7]]⟩ : OwnerData))] ≠ [] := by
  exact ⟨rfl, by decide⟩

/-- C8: getShortKey returns a key of length at most 20 bytes unchanged, and
for a longer key returns exactly the first 10 bytes, the three ellipsis
bytes, then the last 10 bytes; being a pure function it never alters the
stored key. -/
theorem getShortKey_spec (pubKey : Pubkey) :
    getShortKey pubKey =
      if pubKey.length ≤ 20 then pubKey
      else pubKey.take 10 ++ [46, 46, 46] ++ pubKey.drop (pubKey.length - 10) := by
  by_cases hl : pubKey.length ≤ 20
  · simp [getShortKey, maxPubKeyDisplayableLen, hl, Nat.not_lt.mpr hl]
  · simp [getShortKey, maxPubKeyDisplayableLen, ellipsisBytes, hl, Nat.lt_of_not_le hl]

/-- C9: Increment, AddUint64 and Decrement modify the metrics map only when
the key already holds a uint64 value: they are no-ops when the key is absent
or holds an int64 or string, they never create or remove a key, Decrement of
a key holding uint64 0 leaves the map unchanged, and a decremented stored
value is the truncated predecessor, so a stored uint64 metric never drops
below zero. -/
theorem statusMetrics_counter_ops (m : MetricsMap) (key : String) (val : Nat) :
    (loadMetric m key = none →
      increment m key = m ∧ addUint64 m key val = m ∧ decrement m key = m) ∧
    (∀ i, loadMetric m key = some (MetricValue.i64 i) →
      increment m key = m ∧ addUint64 m key val = m ∧ decrement m key = m) ∧
    (∀ s, loadMetric m key = some (MetricValue.str s) →
      increment m key = m ∧ addUint64 m key val = m ∧ decrement m key = m) ∧
    ((increment m key).map Prod.fst = m.map Prod.fst) ∧
    ((addUint64 m key val).map Prod.fst = m.map Prod.fst) ∧
    ((decrement m key).map Prod.fst = m.map Prod.fst) ∧
    (loadMetric m key = some (MetricValue.u64 0) → decrement m key = m) ∧
    (∀ v, loadMetric m key = some (MetricValue.u64 v) →
      loadMetric (decrement m key) key = some (MetricValue.u64 (v - 1))) := by
  rcases hload : loadMetric m key with _ | mv
  · simp [increment, addUint64, decrement, hload]
  · cases mv with
    | u64 v =>
      by_cases hv : v = 0
      · subst hv
        simp [increment, addUint64, decrement, hload,
          storeMetric_map_fst_of_load, loadMetric_storeMetric_self]
      · simp [increment, addUint64, decrement, hload, hv,
          storeMetric_map_fst_of_load, loadMetric_storeMetric_self]
    | i64 i => simp [increment, addUint64, decrement, hload]
    | str s => simp [increment, addUint64, decrement, hload]

/-- Witness for C9: on the one-entry map holding uint64 0, Decrement leaves
the map unchanged. -/
theorem statusMetrics_counter_ops_witness :
    decrement [( "k", MetricValue.u64 0)] "k" = [( "k", MetricValue.u64 0)] :=
  (statusMetrics_counter_ops [( "k", MetricValue.u64 0)] "k" 5).2.2.2.2.2.2.1
    (by decide)

/-- C10: NewStandardDelegationProcessor fails exactly when one of the six
injected dependencies is nil, or NodePrice is nil, or NodePrice is not
positive; on success the returned processor holds exactly the supplied
arguments. -/
theorem NewStandardDelegationProcessor_spec (arg : ArgStandardDelegationProcessor) :
    ((∃ e, NewStandardDelegationProcessor arg = Except.error e) ↔
      (arg.Executor = none ∨ arg.ShardCoordinator = none ∨
       arg.AccountsParser = none ∨ arg.SmartContractParser = none ∨
       arg.NodesListSplitter = none ∨ arg.QueryService = none ∨
       arg.NodePrice = none ∨ ∃ p, arg.NodePrice = some p ∧ p ≤ 0)) ∧
    (∀ sdp, NewStandardDelegationProcessor arg = Except.ok sdp →
      arg.Executor = some sdp.txExecutionProcessor ∧
      arg.ShardCoordinator = some sdp.shardCoordinator ∧
      arg.AccountsParser = some sdp.accuntsParser ∧
      arg.SmartContractParser = some sdp.smartContractsParser ∧
      arg.NodesListSplitter = some sdp.nodesListSplitter ∧
      arg.QueryService = some sdp.queryService ∧
      arg.NodePrice = some sdp.nodePrice) := by
  obtain ⟨ex, sc, ap, scp, nls, qs, np⟩ := arg
  cases ex with
  | none => simp [NewStandardDelegationProcessor]
  | some e =>
  cases sc with
  | none => simp [NewStandardDelegationProcessor]
  | some s =>
  cases ap with
  | none => simp [NewStandardDelegationProcessor]
  | some a =>
  cases scp with
  | none => simp [NewStandardDelegationProcessor]
  | some sp =>
  cases nls with
  | none => simp [NewStandardDelegationProcessor]
  | some n =>
  cases qs with
  | none => simp [NewStandardDelegationProcessor]
  | some q =>
  cases np with
  | none => simp [NewStandardDelegationProcessor]
  | some p =>
  by_cases hp : p ≤ 0
  · simp [NewStandardDelegationProcessor, hp]
  · constructor
    · simp [NewStandardDelegationProcessor, hp]
    · intro sdp hok
      simp [NewStandardDelegationProcessor, hp] at hok
      rw [← hok]
      exact ⟨rfl, rfl, rfl, rfl, rfl, rfl, rfl⟩

/-- Witness for C10: a nil Executor makes the constructor fail, and with
every dependency supplied and NodePrice 7 the constructor succeeds with
exactly the supplied arguments. -/
theorem NewStandardDelegationProcessor_spec_witness :
    (∃ e, NewStandardDelegationProcessor
      ⟨none, some ⟨2⟩, some ⟨3⟩, some ⟨4⟩, some ⟨5⟩, some ⟨6⟩, some 7⟩ =
        Except.error e) ∧
    (ArgStandardDelegationProcessor.mk
      (some ⟨1⟩) (some ⟨2⟩) (some ⟨3⟩) (some ⟨4⟩) (some ⟨5⟩) (some ⟨6⟩)
      (some 7)).Executor = some
        (StandardDelegationProcessor.mk ⟨1⟩ ⟨2⟩ ⟨3⟩ ⟨4⟩ ⟨5⟩ ⟨6⟩ 7).txExecutionProcessor :=
  ⟨(NewStandardDelegationProcessor_spec
      ⟨none, some ⟨2⟩, some ⟨3⟩, some ⟨4⟩, some ⟨5⟩, some ⟨6⟩, some 7⟩).1.mpr
      (Or.inl rfl),
   ((NewStandardDelegationProcessor_spec
      ⟨some ⟨1⟩, some ⟨2⟩, some ⟨3⟩, some ⟨4⟩, some ⟨5⟩, some ⟨6⟩, some 7⟩).2
      (StandardDelegationProcessor.mk ⟨1⟩ ⟨2⟩ ⟨3⟩ ⟨4⟩ ⟨5⟩ ⟨6⟩ 7) rfl).1⟩
